import Mathlib

/-!
Verification development for the conversational session protocol layer of the
connext-vc-copilot VS Code extension.

The definitions below are shallow embeddings of the TypeScript source:

* src/prompt.ts, function getPrompt (the history window builder, lines 731-898):
  serialization of prior chat turns, the byte-budget truncation loop, the
  workspace-info strip, and the final assembly (including the file write the
  source performs when its response argument is null).
* src/extension.ts: the chat request handler installed by activate (the session
  orchestrator, lines 685-991), its inbound response listener (lines 845-876),
  and the polling helper waitForCondition (lines 101-114).

Machine integers do not occur; all counts are Nat. JavaScript strings are
modelled as Lean strings (List Char based); length is counted in characters,
matching the length accounting of the source.
-/

namespace Copilot

/-- Relevant fields of the GlobalState class of src/extension.ts (lines 31-65).
In the source MAX_HISTORY_LENGTH is 65536 and the two VALIDATE strings are
fixed UI texts; they are kept as parameters so that the theorems quantify over
every budget, as the spec does. -/
structure GlobalState where
  MAX_HISTORY_LENGTH : Nat
  VALIDATE_CODE_HELP_STRING : String
  VALIDATE_CODE_WARNING : String
deriving Repr, DecidableEq

/-- A recorded conversation turn: a ChatRequestTurn carries the user prompt
text, a ChatResponseTurn carries the ordered markdown fragment values of the
recorded response (src/prompt.ts lines 770-835 reads exactly these). -/
inductive ChatTurn where
  | request (prompt : String)
  | response (parts : List String)
deriving Repr, DecidableEq

/-- Role delimiter constants of getPrompt (src/prompt.ts lines 743-748). -/
def BeginHumanRestMessage : String := "[[BEGIN Human message]]\n"

/-- End delimiter of a human turn (src/prompt.ts line 744). -/
def EndHumanRestMessage : String := "[[END Human message]]\n"

/-- Begin delimiter of an assistant turn (src/prompt.ts line 745). -/
def BeginAiRestMessage : String := "[[BEGIN AI message]]\n"

/-- End delimiter of an assistant turn (src/prompt.ts line 746). -/
def EndAiRestMessage : String := "[[END AI message]]\n"

/-- Non-REST human role marker (src/prompt.ts line 747). -/
def HumanMessage : String := "Human message:"

/-- Non-REST assistant role marker (src/prompt.ts line 748). -/
def AiMessage : String := "AI message:"

/-- Boolean prefix test on character lists, used to embed the JavaScript
String.prototype.includes and String.prototype.replace operations. -/
def hasPrefixList : List Char → List Char → Bool
  | [], _ => true
  | _ :: _, [] => false
  | p :: ps, c :: cs => p == c && hasPrefixList ps cs

/-- Remove the first occurrence of pat from the list, if one exists.
Returns none when pat does not occur. -/
def removeFirstAux (pat : List Char) : List Char → Option (List Char)
  | [] => if pat.isEmpty then some [] else none
  | c :: cs =>
    if hasPrefixList pat (c :: cs) then some ((c :: cs).drop pat.length)
    else
      match removeFirstAux pat cs with
      | some r => some (c :: r)
      | none => none

/-- JavaScript s.includes(pat): pat occurs as a contiguous substring of s. -/
def strContains (s pat : String) : Bool :=
  (removeFirstAux pat.data s.data).isSome

/-- JavaScript s.replace(pat, emptyString) for a plain string pattern: removes
the first occurrence of pat; leaves s unchanged when pat does not occur. -/
def removeFirst (s pat : String) : String :=
  match removeFirstAux pat.data s.data with
  | some r => String.mk r
  | none => s

/-- JavaScript String.prototype.trim: drop whitespace from both ends. -/
def jsTrim (s : String) : String :=
  String.mk (((s.data.dropWhile Char.isWhitespace).reverse.dropWhile
      Char.isWhitespace).reverse)

/-- Serialization of a ChatRequestTurn inside the history loop
(src/prompt.ts lines 773-780). -/
def serializeRequest (rest_api : Bool) (p : String) : String :=
  if rest_api then BeginHumanRestMessage ++ p ++ "\n" ++ EndHumanRestMessage
  else HumanMessage ++ " " ++ p ++ "\n"

/-- Serialization of a ChatResponseTurn inside the history loop
(src/prompt.ts lines 786-829): role marker, the markdown fragments each
followed by a newline, removal of the first occurrence of the two disposable
UI strings, the empty-response filler, and the closing delimiter. -/
def serializeResponse (gs : GlobalState) (rest_api : Bool)
    (parts : List String) : String :=
  let r := if rest_api then BeginAiRestMessage else AiMessage ++ " "
  let r := parts.foldl (fun acc part => acc ++ part ++ "\n") r
  let r := if strContains r gs.VALIDATE_CODE_HELP_STRING then
      removeFirst r gs.VALIDATE_CODE_HELP_STRING else r
  let r := if strContains r gs.VALIDATE_CODE_WARNING then
      removeFirst r gs.VALIDATE_CODE_WARNING else r
  let r := if jsTrim r == jsTrim BeginAiRestMessage then
      r ++ "No response provided.\n" else r
  if rest_api then r ++ EndAiRestMessage else r

/-- The backward history walk of getPrompt (src/prompt.ts lines 764-849).
The argument list is the history in newest-to-oldest order (the source walks
the history array downward from the last index). acc is previousMessagesList
(built by unshift, so its head is the oldest accepted serialization) and total
is totalLength. A request turn adds only the raw prompt length to total; a
response turn adds its full serialized length. The eviction check
(totalLength above limit while userAsk) runs only right after a request turn,
because userAsk is true exactly then; it shifts off the request just added
and, when present, the response added before it, and exits the loop. -/
def histLoop (gs : GlobalState) (rest_api : Bool) (limit : Nat) :
    List ChatTurn → List String → Nat → List String
  | [], acc, _ => acc
  | ChatTurn.request p :: rest, acc, total =>
    let req := serializeRequest rest_api p
    let acc1 := req :: acc
    let total1 := total + p.length
    if total1 > limit then
      let acc2 := acc1.tail
      if acc2.length > 0 then acc2.tail else acc2
    else histLoop gs rest_api limit rest acc1 total1
  | ChatTurn.response parts :: rest, acc, total =>
    let r := serializeResponse gs rest_api parts
    histLoop gs rest_api limit rest (r :: acc) (total + r.length)

/-- Character class of the broken workspace-info regex start: the source
builds new RegExp from the literal "[Start Workspace Info]\n", so the
bracketed part is a character class, not a literal (src/prompt.ts line 858
with the constants of line 456). -/
def wsStartClass : List Char := "Start Workspace Info".data

/-- Character class of the regex end part, from "[End Workspace Info]\n". -/
def wsEndClass : List Char := "End Workspace Info".data

/-- The lazy tail of the regex: consume the least number of non-newline
characters until a character of wsEndClass directly followed by a newline;
returns the characters after that newline. Fails when a newline is reached
first (the dot of the regex does not match newlines). -/
def lazyEnd : List Char → Option (List Char)
  | [] => none
  | c :: rest =>
    if wsEndClass.contains c && rest.head? == some '\n' then some rest.tail
    else if c == '\n' then none
    else lazyEnd rest

/-- Leftmost match of the workspace-info regex: a character of wsStartClass
directly followed by a newline, then the lazy tail. Returns the characters
before the match and after it. -/
def findWs : List Char → Option (List Char × List Char)
  | [] => none
  | c :: rest =>
    if wsStartClass.contains c && rest.head? == some '\n' then
      match lazyEnd rest.tail with
      | some remainder => some ([], remainder)
      | none =>
        match findWs rest with
        | some (pre, post) => some (c :: pre, post)
        | none => none
    else
      match findWs rest with
      | some (pre, post) => some (c :: pre, post)
      | none => none

/-- JavaScript promptWithContext.replace(regex, emptyString) of src/prompt.ts
lines 857-860: delete the leftmost match of the (unescaped, hence broken)
workspace-info regex, if any. -/
def stripWorkspaceInfo (s : String) : String :=
  match findWs s.data with
  | none => s
  | some (pre, post) => String.mk (pre ++ post)

/-- In-order concatenation of a list of strings; the source concatenates
previousMessagesList front to back (src/prompt.ts lines 853-855). -/
def joinAll : List String → String
  | [] => ""
  | s :: rest => s ++ joinAll rest

/-- The byte budget left for history (src/prompt.ts lines 750-760): the full
budget when the prompt argument is null, otherwise the budget minus the length
of the assembled new question (prompt plus workspace preamble), clamped at 0.
The promptWithInfo argument models the result of
generatePromptWithWorkspaceInfo, an effectful collaborator (it reads files and
open editors) treated as an opaque input, none standing for a null prompt. -/
def limitFor (gs : GlobalState) (promptWithInfo : Option String) : Nat :=
  match promptWithInfo with
  | none => gs.MAX_HISTORY_LENGTH
  | some pwi =>
    let l : Int := (gs.MAX_HISTORY_LENGTH : Int) - (pwi.length : Int)
    if l < 0 then 0 else l.toNat

/-- The accepted history window (src/prompt.ts lines 762-849): empty when the
limit is 0, otherwise the result of the backward walk, oldest first. -/
def historyWindow (gs : GlobalState) (rest_api : Bool) (limit : Nat)
    (history : List ChatTurn) : List String :=
  if limit > 0 then histLoop gs rest_api limit history.reverse [] 0 else []

/-- The history part of the output of getPrompt: the accepted window joined in
order and passed through the workspace-info strip (src/prompt.ts 851-860). -/
def historyPortion (gs : GlobalState) (rest_api : Bool) (limit : Nat)
    (history : List ChatTurn) : String :=
  stripWorkspaceInfo (joinAll (historyWindow gs rest_api limit history))

/-- A filesystem write performed by the source. -/
structure FileWrite where
  path : String
  content : String
deriving Repr, DecidableEq

/-- Shallow embedding of getPrompt (src/prompt.ts lines 731-898). The first
component is the returned string, the second the list of filesystem writes the
call performs: the source calls fs.writeFileSync on a hardcoded absolute path
whenever its prompt argument is non-null and its response argument is null
(lines 892-895). history is oldest first, as in the VS Code chat history. -/
def getPrompt (gs : GlobalState) (history : List ChatTurn)
    (promptWithInfo : Option String) (response : Option String)
    (rest_api : Bool) : String × List FileWrite :=
  let limit := limitFor gs promptWithInfo
  let ctx := historyPortion gs rest_api limit history
  match promptWithInfo with
  | none => (ctx, [])
  | some pwi =>
    let out := if rest_api then
        ctx ++ BeginHumanRestMessage ++ pwi ++ EndHumanRestMessage
      else ctx ++ HumanMessage ++ " " ++ pwi
    match response with
    | none =>
      (out, [⟨"/Users/fernando/RTI/AI/demos/demo_plc/prompt.txt", out⟩])
    | some resp =>
      let out2 := if rest_api then
          out ++ BeginAiRestMessage ++ resp ++ "\n" ++ EndAiRestMessage
        else out ++ AiMessage ++ " " ++ resp ++ "\n"
      (out2, [])

/-- The GlobalState constants exactly as the source constructor sets them
(src/extension.ts lines 47-64). -/
def sourceGlobalState : GlobalState :=
  { MAX_HISTORY_LENGTH := 65536
    VALIDATE_CODE_HELP_STRING := "\n\n*Click 'Validate Code' to check the XML or Python for errors. The chatbot will try to fix issues with the XML schema, or Python syntax or types. Validation may take up to a minute.*"
    VALIDATE_CODE_WARNING := "\n\n***NOTE:** Although the code has been validated, it may still contain errors. Please review and test the code before using it.*" }

/-- A logical conversation pair: the user prompt of a ChatRequestTurn and the
markdown fragments of the ChatResponseTurn recorded directly after it. The
data model of the spec produces history as a sequence of such pairs. -/
abbrev ChatPair := String × List String

/-- The history turns of a list of pairs, oldest first. -/
def pairTurns : List ChatPair → List ChatTurn
  | [] => []
  | (p, parts) :: rest =>
    ChatTurn.request p :: ChatTurn.response parts :: pairTurns rest

/-- The turns of a list of pairs with each pair emitted response first; used
to describe the reversed history that the backward walk consumes. -/
def revTurns : List ChatPair → List ChatTurn
  | [] => []
  | (p, parts) :: rest =>
    ChatTurn.response parts :: ChatTurn.request p :: revTurns rest

/-- Pair-level restatement of the backward walk histLoop: per pair it adds the
serialized response and request, charges the serialized response length plus
the raw prompt length, and on exceeding the limit drops the pair just added
and stops, returning the pairs accepted so far. -/
def pairLoop (gs : GlobalState) (rest_api : Bool) (limit : Nat) :
    List ChatPair → List String → Nat → List String
  | [], acc, _ => acc
  | (p, parts) :: rest, acc, total =>
    let rn := serializeResponse gs rest_api parts
    let total2 := total + rn.length + p.length
    if total2 > limit then acc
    else pairLoop gs rest_api limit rest (serializeRequest rest_api p :: rn :: acc) total2

/-- Serializations of a list of pairs, request then response, in list order. -/
def flatSer (gs : GlobalState) (rest_api : Bool) : List ChatPair → List String
  | [] => []
  | (p, parts) :: rest =>
    serializeRequest rest_api p :: serializeResponse gs rest_api parts ::
      flatSer gs rest_api rest

/-- The length the truncation loop charges for one pair: the full serialized
response length plus only the raw prompt length (the human delimiters are not
charged, src/prompt.ts line 783 versus line 833). -/
def pairCount (gs : GlobalState) (rest_api : Bool) (pr : ChatPair) : Nat :=
  (serializeResponse gs rest_api pr.2).length + pr.1.length

/-- Total charged length of a list of pairs. -/
def countedLen (gs : GlobalState) (rest_api : Bool) : List ChatPair → Nat
  | [] => 0
  | pr :: rest => pairCount gs rest_api pr + countedLen gs rest_api rest

lemma revTurns_append (A B : List ChatPair) :
    revTurns (A ++ B) = revTurns A ++ revTurns B := by
  induction A with
  | nil => simp [revTurns]
  | cons pr rest ih => obtain ⟨p, parts⟩ := pr; simp [revTurns, ih]

lemma pairTurns_reverse (prs : List ChatPair) :
    (pairTurns prs).reverse = revTurns prs.reverse := by
  induction prs with
  | nil => simp [pairTurns, revTurns]
  | cons pr rest ih =>
    obtain ⟨p, parts⟩ := pr
    simp [pairTurns, revTurns, ih, revTurns_append]

lemma histLoop_revTurns (gs : GlobalState) (ra : Bool) (limit : Nat) :
    ∀ (L : List ChatPair) (acc : List String) (total : Nat),
      histLoop gs ra limit (revTurns L) acc total = pairLoop gs ra limit L acc total := by
  intro L
  induction L with
  | nil => intro acc total; rfl
  | cons pr rest ih =>
    intro acc total
    obtain ⟨p, parts⟩ := pr
    simp only [revTurns, histLoop, pairLoop]
    split
    · simp [List.tail]
    · exact ih _ _

lemma flatSer_append (gs : GlobalState) (ra : Bool) (A B : List ChatPair) :
    flatSer gs ra (A ++ B) = flatSer gs ra A ++ flatSer gs ra B := by
  induction A with
  | nil => simp [flatSer]
  | cons pr rest ih => obtain ⟨p, parts⟩ := pr; simp [flatSer, ih]

lemma countedLen_append (gs : GlobalState) (ra : Bool) (A B : List ChatPair) :
    countedLen gs ra (A ++ B) = countedLen gs ra A + countedLen gs ra B := by
  induction A with
  | nil => simp [countedLen]
  | cons pr rest ih => simp [countedLen, ih]; omega

lemma countedLen_reverse (gs : GlobalState) (ra : Bool) (M : List ChatPair) :
    countedLen gs ra M.reverse = countedLen gs ra M := by
  induction M with
  | nil => rfl
  | cons pr rest ih =>
    simp [countedLen, countedLen_append, ih]; omega

/-- Invariant of the pair-level walk: it accepts some newest-first prefix of
the remaining pairs whole, the accepted serializations land in front of the
accumulator, and the charged total stays within the limit. -/
lemma pairLoop_spec (gs : GlobalState) (ra : Bool) (limit : Nat) :
    ∀ (L : List ChatPair) (acc : List String) (total : Nat), total ≤ limit →
      ∃ j, j ≤ L.length ∧
        pairLoop gs ra limit L acc total =
          flatSer gs ra (L.take j).reverse ++ acc ∧
        total + countedLen gs ra (L.take j) ≤ limit := by
  intro L
  induction L with
  | nil =>
    intro acc total h
    exact ⟨0, by simp, by simp [pairLoop, flatSer], by simpa [countedLen] using h⟩
  | cons pr rest ih =>
    intro acc total h
    obtain ⟨p, parts⟩ := pr
    by_cases hc : total + (serializeResponse gs ra parts).length + p.length > limit
    · refine ⟨0, by simp, ?_, by simpa [countedLen] using h⟩
      simp [pairLoop, hc, flatSer]
    · push_neg at hc
      obtain ⟨j, hj, heq, hcount⟩ :=
        ih (serializeRequest ra p :: serializeResponse gs ra parts :: acc)
          (total + (serializeResponse gs ra parts).length + p.length) hc
      refine ⟨j + 1, by simpa using hj, ?_, ?_⟩
      · have hne : ¬ (total + (serializeResponse gs ra parts).length + p.length > limit) := by omega
        simp only [pairLoop, if_neg hne]
        rw [heq]
        simp [List.take_succ_cons, flatSer_append, flatSer]
      · simp only [List.take_succ_cons, countedLen, pairCount] at hcount ⊢
        omega

/-- The accepted window over a paired history is the serialization of the
last pairs of the history, whole, oldest first. -/
lemma historyWindow_pairs (gs : GlobalState) (ra : Bool) (limit : Nat)
    (prs : List ChatPair) :
    ∃ k, k ≤ prs.length ∧
      historyWindow gs ra limit (pairTurns prs) = flatSer gs ra (prs.drop k) ∧
      (0 < limit → countedLen gs ra (prs.drop k) ≤ limit) := by
  by_cases hl : 0 < limit
  · obtain ⟨j, hj, heq, hcount⟩ :=
      pairLoop_spec gs ra limit prs.reverse [] 0 (Nat.zero_le _)
    simp only [List.length_reverse] at hj
    refine ⟨prs.length - j, Nat.sub_le _ _, ?_, ?_⟩
    · have hw : historyWindow gs ra limit (pairTurns prs) =
          pairLoop gs ra limit prs.reverse [] 0 := by
        simp only [historyWindow, if_pos hl, pairTurns_reverse, histLoop_revTurns]
      rw [hw, heq, List.append_nil]
      congr 1
      rw [List.take_reverse, List.reverse_reverse]
    · intro _
      have : prs.reverse.take j = (prs.drop (prs.length - j)).reverse := List.take_reverse
      rw [this, countedLen_reverse] at hcount
      omega
  · refine ⟨prs.length, le_refl _, ?_, fun h => absurd h hl⟩
    simp [historyWindow, hl, List.drop_length, flatSer]

lemma lazyEnd_length : ∀ (l r : List Char), lazyEnd l = some r → r.length ≤ l.length := by
  intro l
  induction l with
  | nil => intro r h; simp [lazyEnd] at h
  | cons c cs ih =>
    intro r h
    simp only [lazyEnd] at h
    split at h
    · cases h
      calc (List.tail cs).length ≤ cs.length := by
            cases cs <;> simp [List.tail]
        _ ≤ (c :: cs).length := by simp
    · split at h
      · cases h
      · have := ih r h
        simp
        omega

lemma findWs_length : ∀ (l pre post : List Char),
    findWs l = some (pre, post) → pre.length + post.length ≤ l.length := by
  intro l
  induction l with
  | nil => intro pre post h; simp [findWs] at h
  | cons c cs ih =>
    intro pre post h
    simp only [findWs] at h
    split at h
    · cases hle : lazyEnd cs.tail with
      | some remainder =>
        rw [hle] at h
        simp only [Option.some.injEq, Prod.mk.injEq] at h
        obtain ⟨h3, h4⟩ := h
        subst h3
        subst h4
        have h1 := lazyEnd_length _ _ hle
        have h2 : (List.tail cs).length ≤ cs.length := by
          cases cs <;> simp [List.tail]
        simp
        omega
      | none =>
        rw [hle] at h
        cases hfw : findWs cs with
        | some pr =>
          obtain ⟨pre0, post0⟩ := pr
          rw [hfw] at h
          simp only [Option.some.injEq, Prod.mk.injEq] at h
          obtain ⟨h3, h4⟩ := h
          subst h3
          subst h4
          have := ih pre0 post0 hfw
          simp
          omega
        | none => rw [hfw] at h; cases h
    · cases hfw : findWs cs with
      | some pr =>
        obtain ⟨pre0, post0⟩ := pr
        rw [hfw] at h
        simp only [Option.some.injEq, Prod.mk.injEq] at h
        obtain ⟨h3, h4⟩ := h
        subst h3
        subst h4
        have := ih pre0 post0 hfw
        simp
        omega
      | none => rw [hfw] at h; cases h

/-- The workspace-info strip never lengthens the string. -/
lemma stripWorkspaceInfo_length (s : String) :
    (stripWorkspaceInfo s).length ≤ s.length := by
  cases hfw : findWs s.data with
  | none =>
    have heq : stripWorkspaceInfo s = s := by unfold stripWorkspaceInfo; rw [hfw]
    rw [heq]
  | some pr =>
    obtain ⟨pre, post⟩ := pr
    have heq : stripWorkspaceInfo s = String.mk (pre ++ post) := by
      unfold stripWorkspaceInfo; rw [hfw]
    rw [heq, String.length_mk, List.length_append]
    have h1 := findWs_length s.data pre post hfw
    have h3 : s.length = s.data.length := rfl
    omega

/-- The fixed serialization overhead of a human turn in REST mode: the two
delimiters and the newline after the prompt, none of which the truncation
loop charges against the budget. -/
def requestOverhead : Nat :=
  BeginHumanRestMessage.length + ("\n" : String).length + EndHumanRestMessage.length

lemma serializeRequest_true_length (p : String) :
    (serializeRequest true p).length = p.length + requestOverhead := by
  simp only [serializeRequest, if_pos, requestOverhead, String.length_append]
  omega

lemma joinAll_append (a : String) (l : List String) :
    joinAll (a :: l) = a ++ joinAll l := rfl

lemma joinAll_flatSer_length (gs : GlobalState) (M : List ChatPair) :
    (joinAll (flatSer gs true M)).length =
      countedLen gs true M + requestOverhead * M.length := by
  induction M with
  | nil => simp [flatSer, joinAll, countedLen]
  | cons pr rest ih =>
    obtain ⟨p, parts⟩ := pr
    simp only [flatSer, joinAll, String.length_append, ih,
      serializeRequest_true_length, countedLen, pairCount, List.length_cons]
    ring

/-- Claim C2: truncation keeps whole request/response pairs and drops only
from the oldest end. Over a history made of logical pairs, the window the
builder accepts is exactly the serialization, oldest first and request before
response, of the last pairs of the history for some cut index k; the emitted
history context of getPrompt is that window joined and passed through the
workspace-info strip. No assistant serialization ever appears without its
paired preceding request serialization, and no request is left dangling. -/
theorem pair_integrity (gs : GlobalState) (ra : Bool) (limit : Nat)
    (prs : List ChatPair) :
    ∃ k, k ≤ prs.length ∧
      historyWindow gs ra limit (pairTurns prs) = flatSer gs ra (prs.drop k) ∧
      historyPortion gs ra limit (pairTurns prs) =
        stripWorkspaceInfo (joinAll (flatSer gs ra (prs.drop k))) := by
  obtain ⟨k, hk, heq, _⟩ := historyWindow_pairs gs ra limit prs
  exact ⟨k, hk, heq, by rw [historyPortion, heq]⟩

/-- Claim C1, amended. Over a history of logical pairs: (a) if the new
question with its preamble alone reaches or exceeds the budget, history
contributes zero turns and the emitted history portion is empty; (b) the
length that the loop charges for the accepted window (raw prompt text for
human turns, full serialized text for assistant turns) never exceeds the
budget minus the question-plus-preamble length; (c) the emitted history
portion may exceed that limit, but only by the fixed uncharged human
delimiter overhead of each accepted pair. -/
theorem history_budget (gs : GlobalState) (prs : List ChatPair) (pwi : String) :
    (pwi.length ≥ gs.MAX_HISTORY_LENGTH →
      historyWindow gs true (limitFor gs (some pwi)) (pairTurns prs) = [] ∧
      historyPortion gs true (limitFor gs (some pwi)) (pairTurns prs) = "") ∧
    ∃ k, k ≤ prs.length ∧
      historyWindow gs true (limitFor gs (some pwi)) (pairTurns prs) =
        flatSer gs true (prs.drop k) ∧
      countedLen gs true (prs.drop k) ≤ limitFor gs (some pwi) ∧
      (historyPortion gs true (limitFor gs (some pwi)) (pairTurns prs)).length ≤
        limitFor gs (some pwi) + requestOverhead * (prs.drop k).length := by
  constructor
  · intro hbig
    have hz : limitFor gs (some pwi) = 0 := by
      simp only [limitFor]
      split
      · rfl
      · rename_i hneg
        have : (gs.MAX_HISTORY_LENGTH : Int) - (pwi.length : Int) ≤ 0 := by
          omega
        omega
    rw [hz]
    constructor
    · simp [historyWindow]
    · rfl
  · obtain ⟨k, hk, heq, hcount⟩ := historyWindow_pairs gs true (limitFor gs (some pwi)) prs
    refine ⟨k, hk, heq, ?_, ?_⟩
    · by_cases hl : 0 < limitFor gs (some pwi)
      · exact hcount hl
      · have hz : limitFor gs (some pwi) = 0 := by omega
        rw [hz] at heq ⊢
        have : historyWindow gs true 0 (pairTurns prs) = [] := by simp [historyWindow]
        rw [this] at heq
        cases hd : prs.drop k with
        | nil => simp [hd, countedLen]
        | cons pr rest => rw [hd] at heq; obtain ⟨p, parts⟩ := pr; simp [flatSer] at heq
    · calc (historyPortion gs true (limitFor gs (some pwi)) (pairTurns prs)).length
          ≤ (joinAll (historyWindow gs true (limitFor gs (some pwi)) (pairTurns prs))).length :=
            stripWorkspaceInfo_length _
        _ = (joinAll (flatSer gs true (prs.drop k))).length := by rw [heq]
        _ = countedLen gs true (prs.drop k) + requestOverhead * (prs.drop k).length :=
            joinAll_flatSer_length _ _
        _ ≤ limitFor gs (some pwi) + requestOverhead * (prs.drop k).length := by
            have hcl : countedLen gs true (prs.drop k) ≤ limitFor gs (some pwi) := by
              by_cases hl : 0 < limitFor gs (some pwi)
              · exact hcount hl
              · have hz : limitFor gs (some pwi) = 0 := by omega
                rw [hz] at heq ⊢
                have hwin : historyWindow gs true 0 (pairTurns prs) = [] := by
                  simp [historyWindow]
                rw [hwin] at heq
                cases hd : prs.drop k with
                | nil => simp [hd, countedLen]
                | cons pr rest =>
                  rw [hd] at heq; obtain ⟨p, parts⟩ := pr; simp [flatSer] at heq
            omega

/-- A new question whose assembled form has 65473 characters, leaving a
history limit of 63 characters under the source budget of 65536. -/
def longQuestion : String := String.mk (List.replicate 65473 'a')

/-- A tiny budget instance used to exercise the clamp-to-zero branch. -/
def tinyGlobalState : GlobalState := ⟨3, "H", "W"⟩

/-- Claim C1 as stated is false on the code: with the source constants, a
question of 65473 characters leaves a limit of 63; the single-pair history
with prompt x and an empty recorded response is charged 62 + 1 = 63 and is
accepted, but its emitted serialization has 110 characters, because the
human-turn delimiters are never charged against the budget. -/
theorem history_budget_counterexample :
    ¬ ((historyPortion sourceGlobalState true
          (limitFor sourceGlobalState (some longQuestion))
          (pairTurns [("x", [])])).length ≤
        sourceGlobalState.MAX_HISTORY_LENGTH - longQuestion.length) := by
  have hlen : longQuestion.length = 65473 := by
    rw [show longQuestion = String.mk (List.replicate 65473 'a') from rfl,
      String.length_mk, List.length_replicate]
  have hlim : limitFor sourceGlobalState (some longQuestion) = 63 := by
    simp only [limitFor, hlen]
    decide
  rw [hlim, hlen]
  decide

theorem history_budget_witness :
    ("abcd" : String).length ≥ tinyGlobalState.MAX_HISTORY_LENGTH ∧
    historyWindow tinyGlobalState true
      (limitFor tinyGlobalState (some "abcd")) (pairTurns [("u", ["v"])]) = [] ∧
    historyPortion tinyGlobalState true
      (limitFor tinyGlobalState (some "abcd")) (pairTurns [("u", ["v"])]) = "" :=
  ⟨by decide, (history_budget tinyGlobalState [("u", ["v"])] "abcd").1 (by decide)⟩

/-- Claim C9 is contradicted by the code: every call of getPrompt with a
non-null prompt and a null response writes the assembled context to a
hardcoded absolute path with fs.writeFileSync (src/prompt.ts lines 892-895),
so the function is not free of side effects. -/
theorem getPrompt_null_response_writes (gs : GlobalState) (history : List ChatTurn)
    (pwi : String) (ra : Bool) :
    (getPrompt gs history (some pwi) none ra).2 =
      [⟨"/Users/fernando/RTI/AI/demos/demo_plc/prompt.txt",
        (getPrompt gs history (some pwi) none ra).1⟩] := rfl

/-!
Embedding of the chat request handler of src/extension.ts (the session
orchestrator) and its inbound response listener.
-/

/-- A successfully JSON-parsed inbound payload of the response event
(src/extension.ts lines 845-876). error is the truthiness of the error field
(an absent field is falsy); error_description is the detail read when error is
truthy; last_token is the field value when present; token is the fragment
field when present. -/
structure RespPayload where
  error : Bool
  error_description : String
  last_token : Option Bool
  token : Option String
deriving Repr, DecidableEq

/-- One delivery of the response event: either a string that fails JSON.parse
or the parsed payload. -/
inductive Inbound where
  | malformed (msg : String)
  | ok (p : RespPayload)
deriving Repr, DecidableEq

/-- The per-request mutable state the listener closure writes: the terminal
flag responseReceived (line 843), the accumulated text
globalState.lastResponse (line 777), the error flag of the result metadata,
the fragments streamed to the UI with response.markdown in order, and the
error notifications shown. -/
structure PendingState where
  responseReceived : Bool
  lastResponse : String
  resultError : Bool
  streamed : List String
  notifications : List String
deriving Repr, DecidableEq

/-- The fragment text appended on the token path: parsedData.token, which
JavaScript coerces to the string undefined when the field is absent. -/
def tokenText (p : RespPayload) : String := p.token.getD "undefined"

/-- One execution of the response listener (src/extension.ts lines 845-876):
parse failure and truthy error field both notify, set the terminal flag and
the result error flag; a last_token field strictly equal to true sets only
the terminal flag; anything else appends the token fragment to the
accumulated text and streams it. The listener does not consult
responseReceived, so it processes every payload delivered before it is
removed. -/
def handleResponse (st : PendingState) (d : Inbound) : PendingState :=
  match d with
  | Inbound.malformed msg =>
    { st with
      notifications :=
        st.notifications ++ ["Failed to parse response from server: " ++ msg],
      responseReceived := true, resultError := true }
  | Inbound.ok p =>
    if p.error then
      { st with
        notifications :=
          st.notifications ++
            ["Error processing request in server: " ++ p.error_description],
        responseReceived := true, resultError := true }
    else if p.last_token == some true then
      { st with responseReceived := true }
    else
      { st with lastResponse := st.lastResponse ++ tokenText p,
                streamed := st.streamed ++ [tokenText p] }

/-- The listener applied to a sequence of deliveries in socket order. -/
def processResponses (evs : List Inbound) (st : PendingState) : PendingState :=
  evs.foldl handleResponse st

/-- The listener state at the start of a request: responseReceived false
(line 843), lastResponse reset to the empty string (line 777). -/
def initialPending : PendingState := ⟨false, "", false, [], []⟩

/-- The metadata of the IChatResult the handler returns (src/extension.ts
lines 73-79 and 693-699). -/
structure ChatResultMeta where
  error : Bool
  cancel : Bool
deriving Repr, DecidableEq

/-- The environment of one run of the chat handler: the entry state of the
shared socket, whether the configured URL exists, whether the connect event
arrives within the 10 s connection wait, the cancellation flag at the two
poll exits, the inbound deliveries, and the serialized outbound payload. -/
structure AskEnv where
  socketConnected : Bool
  urlSet : Bool
  connectArrives : Bool
  cancelAtConnect : Bool
  inbound : List Inbound
  cancelAtEnd : Bool
  payload : String
deriving Repr, DecidableEq

/-- Observable outcome of one run: the result metadata, every message emitted
on the socket, the final socket ownership state of the global state, whether
the response listener is still attached, the listener state, whether
socket.disconnect was called, and the notifications shown. -/
structure AskTrace where
  result : ChatResultMeta
  emitted : List String
  socketDefined : Bool
  connectionReady : Bool
  listenerAttached : Bool
  pending : PendingState
  disconnectCalled : Bool
  notifications : List String
deriving Repr, DecidableEq

/-- The phase of the handler after a ready connection exists
(src/extension.ts lines 843-989): attach the response listener (845), emit
the request (878-891), let the listener process the deliveries, wait until
terminal, disconnect or cancellation bounded by the 120 s deadline (893-900),
show the timeout notification when no terminal signal arrived and
cancellation is absent (902-906; the supplementary follow-up queries of the
success path, lines 907-972, are best-effort and leave the protocol state
alone), remove the listener unconditionally (974), and on cancellation mark
the result cancelled, disconnect and discard the shared socket (976-987). -/
def sendAndAwait (env : AskEnv) (tr : AskTrace) : AskTrace :=
  let tr1 := { tr with listenerAttached := true }
  let tr2 := { tr1 with emitted := tr1.emitted ++ [env.payload] }
  let pend := processResponses env.inbound initialPending
  let tr3 := { tr2 with pending := pend,
                        notifications := tr2.notifications ++ pend.notifications }
  let tr4 := if !pend.responseReceived then
      (if !env.cancelAtEnd then
        { tr3 with notifications := tr3.notifications ++ ["Request timed out."] }
      else tr3)
    else tr3
  let tr5 := { tr4 with listenerAttached := false }
  if env.cancelAtEnd then
    { tr5 with
      result := { error := tr5.result.error || pend.resultError, cancel := true },
      disconnectCalled := true, socketDefined := false, connectionReady := false }
  else
    { tr5 with
      result := { error := tr5.result.error || pend.resultError,
                  cancel := tr5.result.cancel } }

/-- The session flow of one chat request (src/extension.ts lines 776-989),
starting where the handler decides whether the shared socket is usable (779):
when it is not, a missing URL fails immediately (783-787), otherwise a fresh
socket is opened and the handler polls up to 10 s for the connect event
(789-825); cancellation observed there returns Cancelled without touching the
socket (827-832), an absent connect event returns the connection failure
(834-838); otherwise the send phase runs. -/
def askModel (env : AskEnv) : AskTrace :=
  let tr0 : AskTrace :=
    { result := ⟨false, false⟩, emitted := [],
      socketDefined := env.socketConnected,
      connectionReady := env.socketConnected,
      listenerAttached := false, pending := initialPending,
      disconnectCalled := false, notifications := [] }
  if env.socketConnected then sendAndAwait env tr0
  else if !env.urlSet then
    { tr0 with result := ⟨true, false⟩,
               notifications := ["Intelligence Platform URL is not set."] }
  else
    let tr1 := { tr0 with socketDefined := true,
                          connectionReady := env.connectArrives }
    if env.cancelAtConnect then { tr1 with result := ⟨false, true⟩ }
    else if !env.connectArrives then
      { tr1 with result := ⟨true, false⟩,
                 notifications := ["Connection to the server failed."] }
    else sendAndAwait env tr1

/-- The terminal success payload, the parse of a JSON object whose only field
is last_token with value true. -/
def terminalPayload : Inbound := Inbound.ok ⟨false, "", some true, none⟩

/-- A plain fragment payload carrying the given token text. -/
def mkToken (s : String) : Inbound := Inbound.ok ⟨false, "", none, some s⟩

lemma handleResponse_keeps_terminal (st : PendingState) (ev : Inbound)
    (h : st.responseReceived = true) :
    (handleResponse st ev).responseReceived = true := by
  cases ev with
  | malformed msg => rfl
  | ok p =>
    simp only [handleResponse]
    split
    · rfl
    · split
      · rfl
      · simpa using h

/-- Claim C3, amended part: the terminal flag is monotone under any sequence
of deliveries, hence it transitions from false to true at most once and never
reverts. (The second half of the original claim fails: fragments delivered
after the terminal payload but before the listener is removed are still
appended, see the counterexample.) -/
theorem terminal_monotone (evs : List Inbound) (st : PendingState)
    (h : st.responseReceived = true) :
    (processResponses evs st).responseReceived = true := by
  induction evs generalizing st with
  | nil => simpa [processResponses] using h
  | cons ev rest ih =>
    simp only [processResponses, List.foldl_cons] at ih ⊢
    exact ih _ (handleResponse_keeps_terminal st ev h)

theorem terminal_monotone_witness :
    (processResponses [terminalPayload] initialPending).responseReceived = true ∧
    (processResponses [mkToken "x"]
      (processResponses [terminalPayload] initialPending)).responseReceived = true :=
  ⟨by decide,
    terminal_monotone [mkToken "x"]
      (processResponses [terminalPayload] initialPending) (by decide)⟩

/-- Claim C3 as stated is false on the code: after the terminal payload sets
responseReceived, a further token payload delivered before the listener is
removed is still appended to the accumulated text and streamed to the UI,
because the listener never checks responseReceived. -/
theorem terminal_then_fragment_counterexample :
    (processResponses [terminalPayload] initialPending).responseReceived = true ∧
    (processResponses [terminalPayload] initialPending).lastResponse = "" ∧
    (processResponses [terminalPayload, mkToken "x"]
        initialPending).responseReceived = true ∧
    (processResponses [terminalPayload, mkToken "x"]
        initialPending).lastResponse = "x" ∧
    (processResponses [terminalPayload, mkToken "x"]
        initialPending).streamed = ["x"] := by
  refine ⟨rfl, rfl, rfl, rfl, rfl⟩

/-- Claim C4: whenever cancellation is observed at the end of the response
wait, for every entry state and whatever was delivered, the run resolves with
a cancelled result, socket.disconnect has been called, the shared socket is
discarded (undefined, not ready) and the response listener is removed. -/
theorem cancellation_teardown (sc us ca cc : Bool) (inb : List Inbound)
    (pl : String) (tr : AskTrace) :
    (sendAndAwait ⟨sc, us, ca, cc, inb, true, pl⟩ tr).result.cancel = true ∧
    (sendAndAwait ⟨sc, us, ca, cc, inb, true, pl⟩ tr).disconnectCalled = true ∧
    (sendAndAwait ⟨sc, us, ca, cc, inb, true, pl⟩ tr).socketDefined = false ∧
    (sendAndAwait ⟨sc, us, ca, cc, inb, true, pl⟩ tr).connectionReady = false ∧
    (sendAndAwait ⟨sc, us, ca, cc, inb, true, pl⟩ tr).listenerAttached = false := by
  simp only [sendAndAwait]
  split <;> simp_all

/-- The environment of the pure timeout scenario: the shared socket is
connected, the request is emitted, no payload at all arrives before the 120 s
deadline, and cancellation never fires. -/
def timeoutEnv : AskEnv := ⟨true, true, true, false, [], false, "sent-question"⟩

/-- Claim C5 against the code: on the timeout path the handler only shows the
notification; the returned result metadata has error = false and
cancel = false, the same shape as a successful answer, so the structured
TimedOut failure the claim requires is absent (the followup provider even
treats such a run as a success). -/
theorem timeout_result_not_flagged :
    (askModel timeoutEnv).result.error = false ∧
    (askModel timeoutEnv).result.cancel = false ∧
    (askModel timeoutEnv).notifications = ["Request timed out."] ∧
    (askModel timeoutEnv).emitted = ["sent-question"] ∧
    (askModel timeoutEnv).pending.responseReceived = false := by
  refine ⟨rfl, rfl, rfl, rfl, rfl⟩

/-- Claim C6: a payload that fails structured parsing terminates the request
as an errored parse failure carrying the parse detail, and a payload whose
error field is truthy terminates it as an errored server failure carrying the
error_description detail; both set the terminal flag and the result error
flag and leave the accumulated text and the stream alone. -/
theorem handler_error_classification :
    (∀ (st : PendingState) (msg : String),
      handleResponse st (Inbound.malformed msg) =
        { st with
          notifications :=
            st.notifications ++ ["Failed to parse response from server: " ++ msg],
          responseReceived := true, resultError := true }) ∧
    (∀ (st : PendingState) (desc : String) (lt : Option Bool) (tok : Option String),
      handleResponse st (Inbound.ok ⟨true, desc, lt, tok⟩) =
        { st with
          notifications :=
            st.notifications ++ ["Error processing request in server: " ++ desc],
          responseReceived := true, resultError := true }) :=
  ⟨fun _ _ => rfl, fun _ _ _ _ => rfl⟩

lemma processResponses_tokens (frags : List String) (st : PendingState) :
    processResponses (frags.map mkToken) st =
      { st with lastResponse := st.lastResponse ++ joinAll frags,
                streamed := st.streamed ++ frags } := by
  induction frags generalizing st with
  | nil =>
    simp only [List.map_nil, processResponses, List.foldl_nil, joinAll]
    cases st
    simp
  | cons f rest ih =>
    simp only [List.map_cons, processResponses, List.foldl_cons] at ih ⊢
    rw [ih]
    simp only [handleResponse, mkToken, tokenText, joinAll]
    simp [String.append_assoc]

/-- Claim C7: for any fragments delivered in order and then the terminal
payload, the request resolves successfully with the accumulated text equal to
the in-order concatenation of the fragments and the fragments streamed to the
UI in delivery order; in particular the fragments Hel and lo followed by the
terminal payload yield the answer Hello. -/
theorem streamed_answer_concat :
    (∀ frags : List String,
      (processResponses (frags.map mkToken ++ [terminalPayload])
          initialPending).responseReceived = true ∧
      (processResponses (frags.map mkToken ++ [terminalPayload])
          initialPending).resultError = false ∧
      (processResponses (frags.map mkToken ++ [terminalPayload])
          initialPending).lastResponse = joinAll frags ∧
      (processResponses (frags.map mkToken ++ [terminalPayload])
          initialPending).streamed = frags) ∧
    (processResponses [mkToken "Hel", mkToken "lo", terminalPayload]
        initialPending).lastResponse = "Hello" ∧
    (processResponses [mkToken "Hel", mkToken "lo", terminalPayload]
        initialPending).responseReceived = true ∧
    (processResponses [mkToken "Hel", mkToken "lo", terminalPayload]
        initialPending).resultError = false ∧
    (processResponses [mkToken "Hel", mkToken "lo", terminalPayload]
        initialPending).streamed = ["Hel", "lo"] := by
  refine ⟨?_, rfl, rfl, rfl, rfl⟩
  intro frags
  have hsplit : processResponses (frags.map mkToken ++ [terminalPayload]) initialPending =
      handleResponse (processResponses (frags.map mkToken) initialPending)
        terminalPayload := by
    simp [processResponses, List.foldl_append]
  rw [hsplit, processResponses_tokens]
  refine ⟨rfl, rfl, ?_, ?_⟩ <;> rfl

/-- Claim C8: when the shared socket is not usable, the URL is configured,
and the connect event does not arrive within the 10 s connection wait without
cancellation having fired, the run fails with the connection failure result
and nothing is ever emitted on the socket. -/
theorem connect_fail_no_send (inb : List Inbound) (ce : Bool) (pl : String) :
    (askModel ⟨false, true, false, false, inb, ce, pl⟩).result.error = true ∧
    (askModel ⟨false, true, false, false, inb, ce, pl⟩).result.cancel = false ∧
    (askModel ⟨false, true, false, false, inb, ce, pl⟩).emitted = [] ∧
    (askModel ⟨false, true, false, false, inb, ce, pl⟩).notifications =
      ["Connection to the server failed."] :=
  ⟨rfl, rfl, rfl, rfl⟩

/-!
Embedding of waitForCondition (src/extension.ts lines 101-114). The loop
checks the condition, breaks when the elapsed time exceeds the timeout, and
sleeps checkInterval milliseconds between polls; time is modelled as
advancing exactly checkInterval per sleep, so at poll tick t the elapsed time
is t * interval. The condition is modelled as a function of the tick, which
covers conditions that flip because of outside events. The positivity
argument reflects that real time advances between polls (the source default
interval is 10 ms and both call sites pass 100 ms). -/
def waitLoop (cond : Nat → Bool) (timeout interval : Nat) (hi : 0 < interval)
    (t : Nat) : Nat :=
  if cond t then t
  else if ht : t * interval > timeout then t
  else waitLoop cond timeout interval hi (t + 1)
termination_by timeout + 1 - t
decreasing_by
  have h1 : t * 1 ≤ t * interval := Nat.mul_le_mul_left t hi
  have h2 : t * interval ≤ timeout := Nat.le_of_not_lt ht
  have h3 : t ≤ timeout := by
    calc t = t * 1 := (Nat.mul_one t).symm
      _ ≤ t * interval := h1
      _ ≤ timeout := h2
  omega

/-- waitForCondition resolves at the first poll tick at which the condition
holds or the elapsed time has exceeded the timeout; the returned value is
that tick. -/
def waitForCondition (cond : Nat → Bool) (timeout interval : Nat)
    (hi : 0 < interval) : Nat :=
  waitLoop cond timeout interval hi 0

lemma waitLoop_spec (cond : Nat → Bool) (timeout interval : Nat)
    (hi : 0 < interval) :
    ∀ (fuel t : Nat), timeout + 1 - t ≤ fuel →
      t ≤ waitLoop cond timeout interval hi t ∧
      (cond (waitLoop cond timeout interval hi t) = true ∨
        (waitLoop cond timeout interval hi t) * interval > timeout) ∧
      (∀ s, t ≤ s → s < waitLoop cond timeout interval hi t →
        cond s = false ∧ s * interval ≤ timeout) := by
  intro fuel
  induction fuel with
  | zero =>
    intro t hfuel
    have htb : timeout + 1 ≤ t := by omega
    have hgt : t * interval > timeout := by
      have : t * 1 ≤ t * interval := Nat.mul_le_mul_left t hi
      omega
    rw [waitLoop]
    by_cases hc : cond t = true
    · rw [if_pos hc]
      exact ⟨le_refl t, Or.inl hc, fun s hs1 hs2 => absurd hs1 (by omega)⟩
    · rw [if_neg hc, dif_pos hgt]
      exact ⟨le_refl t, Or.inr hgt, fun s hs1 hs2 => absurd hs1 (by omega)⟩
  | succ fuel ih =>
    intro t hfuel
    rw [waitLoop]
    by_cases hc : cond t = true
    · rw [if_pos hc]
      exact ⟨le_refl t, Or.inl hc, fun s hs1 hs2 => absurd hs1 (by omega)⟩
    · by_cases hgt : t * interval > timeout
      · rw [if_neg hc, dif_pos hgt]
        exact ⟨le_refl t, Or.inr hgt, fun s hs1 hs2 => absurd hs1 (by omega)⟩
      · rw [if_neg hc, dif_neg hgt]
        have hle : t * interval ≤ timeout := Nat.le_of_not_lt hgt
        have ht : t ≤ timeout := by
          have : t * 1 ≤ t * interval := Nat.mul_le_mul_left t hi
          omega
        obtain ⟨h1, h2, h3⟩ := ih (t + 1) (by omega)
        refine ⟨by omega, h2, ?_⟩
        intro s hs1 hs2
        rcases Nat.eq_or_lt_of_le hs1 with heq | hlt
        · subst heq
          refine ⟨?_, hle⟩
          cases hcv : cond t with
          | false => rfl
          | true => exact absurd hcv hc
        · exact h3 s hlt hs2

/-- Claim C10: waitForCondition terminates for every condition: it resolves
at the first poll tick where either the condition holds or the elapsed time
has passed the timeout (whichever happens first, every earlier tick having
seen the condition false within the deadline), and the wait never lasts
beyond the timeout plus one tick interval; being a total function of its
inputs it never rejects and never polls forever. -/
theorem waitForCondition_resolves (cond : Nat → Bool) (timeout interval : Nat)
    (hi : 0 < interval) :
    (cond (waitForCondition cond timeout interval hi) = true ∨
      (waitForCondition cond timeout interval hi) * interval > timeout) ∧
    (∀ s, s < waitForCondition cond timeout interval hi →
      cond s = false ∧ s * interval ≤ timeout) ∧
    (waitForCondition cond timeout interval hi) * interval ≤ timeout + interval := by
  obtain ⟨h1, h2, h3⟩ :=
    waitLoop_spec cond timeout interval hi (timeout + 1) 0 (by omega)
  have h2z : ∀ s, s < waitForCondition cond timeout interval hi →
      cond s = false ∧ s * interval ≤ timeout := by
    intro s hs
    exact h3 s (Nat.zero_le s) hs
  refine ⟨h2, h2z, ?_⟩
  cases hr : waitForCondition cond timeout interval hi with
  | zero => simp
  | succ r =>
    have hprev : cond r = false ∧ r * interval ≤ timeout := by
      apply h2z
      omega
    have hmul : (r + 1) * interval = r * interval + interval := Nat.succ_mul r interval
    omega

/-- A concrete polling condition that first holds at tick 3. -/
def pollCondition : Nat → Bool := fun t => t == 3

theorem waitForCondition_resolves_witness :
    0 < 2 ∧
    ((pollCondition (waitForCondition pollCondition 7 2 (by decide)) = true ∨
        (waitForCondition pollCondition 7 2 (by decide)) * 2 > 7) ∧
      (∀ s, s < waitForCondition pollCondition 7 2 (by decide) →
        pollCondition s = false ∧ s * 2 ≤ 7) ∧
      (waitForCondition pollCondition 7 2 (by decide)) * 2 ≤ 7 + 2) :=
  ⟨by decide, waitForCondition_resolves pollCondition 7 2 (by decide)⟩

end Copilot
